import Mathlib

/-!
# Verification of the `m` media-watching tracker (obfusk/m, `m.py`)

Shallow embedding of the state-tracking core of `m.py` (final version in the
file): the per-directory JSON sidecar database (`db_load` / `db_update` /
`_db_check` / `db_dir_file` / `db_dirs`), the file classifier
(`_state`, `_state_in_db`, `dir_files`, `dir_iter`, `_dir_count`), the
selection grammar (`_files_from_spec`), the todo aggregation
(`do_todo_dirs`), aliasing (`do_alias_dir`), and the resume-time protocol
(`db_t`, `play_file`, `mpv_play`).

Python values that can appear in the `files` mapping of a sidecar JSON file
are modelled by `JVal`.  Python equality quirks (`True == 1`, `False == 0`)
and identity tests (`x is DONE`) are modelled explicitly where the source
relies on them.  The sidecar configuration directory is modelled as an
association list from file name to entry, where an entry is either a regular
file holding a record or a symbolic link (used by the alias mechanism).
The SHA-1 digest used by `db_dir_file` is abstracted as a function parameter
`hash`; everything else of the naming scheme is modelled concretely.
Global sort/display toggles (`IGNORECASE`, `NUMERICSORT`, `SHOW_HIDDEN`) are
modelled at their default values (all off), as assumed by the claims.
-/

/-- A JSON value as it can appear in a sidecar `files` mapping.
Python's `json.load` produces `True`/`False` (bool), ints, `None`, strings
(floats cannot be produced by the program itself and are never reachable
through a validated load, so they are not modelled). -/
inductive JVal where
  | jbool (b : Bool)
  | jint (n : Int)
  | jnull
  | jstr (s : String)
deriving DecidableEq, Repr

/-- `SKIP, DONE, UNMARK = -1, True, False` (m.py line 753). -/
def SKIP : JVal := .jint (-1)

/-- `DONE = True`. -/
def DONE : JVal := .jbool true

/-- `UNMARK = False`. -/
def UNMARK : JVal := .jbool false

/-- `CONT_BACK = 5` (m.py line 718): rewind constant for resuming. -/
def CONT_BACK : Int := 5

/-- `END_SECS = 5` (m.py line 719): completion margin in seconds. -/
def END_SECS : Nat := 5

/-- `EXTS = ".avi .m4v .mkv .mp4 .ogv .webm".split()` (m.py line 717). -/
def EXTS : List String := [".avi", ".m4v", ".mkv", ".mp4", ".ogv", ".webm"]

/-- `STATES = "skip done playing new".split()` (m.py line 733). -/
def STATES : List String := ["skip", "done", "playing", "new"]

/-- Python `==` comparison of a `files` value against `UNMARK` (= `False`):
in Python `0 == False` and `False == False` hold, nothing else among the
reachable values equals `False` (`True == 1` but `1 != False`). -/
def pyEqFalse : JVal → Bool
  | .jbool b => !b
  | .jint n => n == 0
  | _ => false

/-- One value check of `_db_check` (m.py lines 1359-1361):
`x > 0 or x == SKIP if type(x) is int else x is DONE`.
`type(x) is int` is false for Python bools, so `True` falls through to the
`x is DONE` identity test. -/
def dbCheckVal : JVal → Bool
  | .jint n => decide (0 < n) || decide (n = -1)
  | .jbool true => true
  | _ => false

/-- The `files` mapping of a record: a Python dict modelled as an
association list (first binding wins on lookup, mirroring dict uniqueness). -/
abbrev Files := List (String × JVal)

/-- Dict lookup on a `files` mapping. -/
def flookup : Files → String → Option JVal
  | [], _ => none
  | (k, v) :: rest, n => if k = n then some v else flookup rest n

/-- A parsed sidecar record: `{"dir": ..., "files": ...}`.  The top-level
key-set check of `_db_check` is structural here (a record always has exactly
these two fields). -/
structure DbRec where
  dir : String
  files : Files
deriving DecidableEq, Repr

/-- An entry of the sidecar configuration directory `HOME/.obfusk-m`:
either a regular JSON file holding a record, or a symbolic link whose
content is the (relative) name of another sidecar file. -/
inductive Entry where
  | file (r : DbRec)
  | link (target : String)
deriving DecidableEq, Repr

/-- The sidecar configuration directory: file name ↦ entry. -/
abbrev Store := List (String × Entry)

/-- Directory-listing lookup by file name. -/
def storeGet : Store → String → Option Entry
  | [], _ => none
  | (k, v) :: rest, n => if k = n then some v else storeGet rest n

/-- Create or overwrite the entry named `n`. -/
def storeSet : Store → String → Entry → Store
  | [], n, e => [(n, e)]
  | (k, v) :: rest, n, e =>
    if k = n then (k, e) :: rest else (k, v) :: storeSet rest n e

/-- Follow symbolic links from name `n` to the final name (`Path.resolve`
restricted to the sidecar directory; also the name a write through `n`
lands on).  A dangling link resolves to its (absent) target name, as
`Path.resolve` does without `strict`; `none` models a symlink loop
(`ELOOP`). -/
def resolveName : Nat → Store → String → Option String
  | 0, _, _ => none
  | fuel + 1, st, n =>
    match storeGet st n with
    | some (.link t) => resolveName fuel st t
    | _ => some n

/-- Open and read the file named `n`, following symbolic links
(`df.exists()` + `df.open()` in `db_load`): `none` if the name does not
resolve to an existing regular file. -/
def readFile : Nat → Store → String → Option DbRec
  | 0, _, _ => none
  | fuel + 1, st, n =>
    match storeGet st n with
    | some (.file r) => some r
    | some (.link t) => readFile fuel st t
    | none => none

/-- `Path.exists()` for a sidecar name (follows links; dangling ⇒ false). -/
def pathExists (fuel : Nat) (st : Store) (n : String) : Bool :=
  (readFile fuel st n).isSome

/-- `Path.is_symlink()` for a sidecar name. -/
def df_is_symlink (st : Store) (n : String) : Bool :=
  match storeGet st n with
  | some (.link _) => true
  | _ => false

/-- `db_dir_file` (m.py lines 1366-1370): sidecar file name for a directory
path: `"dir__" + d.replace("/", "|")[:200] + "__" + sha1(d) + ".json"`.
The SHA-1 hex digest is abstracted as the parameter `hash`. -/
def db_dir_file (hash : String → String) (d : String) : String :=
  "dir__" ++ ⟨(d.data.map (fun c => if c = '/' then '|' else c)).take 200⟩
    ++ "__" ++ hash d ++ ".json"

/-- Errors raised through `MError` by the modelled operations (m.py raises
`MError` with a formatted message; here the message's identifying payload is
kept structurally). -/
inductive MErr where
  | wrongDir (df : String)
  | wrongFiles (df : String)
  | outOfRange (x : Nat)
  | invalidSpec (s : String)
  | notADirectory (p : String)
  | relativePath (p : String)
  | pathMismatch (p q : String)
  | alreadyExists (df : String)
  | notIndexed (df : String)
  | cantPlay (fn : String) (cause : String)
  | symlinkLoop (df : String)
deriving DecidableEq, Repr

/-- `_db_check` (m.py lines 1352-1363).  The key-set assertion
(`sorted(db.keys()) == ["dir", "files"]`) holds structurally for `DbRec`.
The `dir` assertion: `db["dir"] == str(dpath) or (df.is_symlink() and
df.resolve().name == db_dir_file(db["dir"]).name)`; then the per-value
assertion `all(x > 0 or x == SKIP if type(x) is int else x is DONE ...)`. -/
def _db_check (hash : String → String) (fuel : Nat) (st : Store)
    (df : String) (dpath : String) (db : DbRec) : Except MErr DbRec :=
  if ¬(db.dir = dpath ∨
       (df_is_symlink st df = true ∧
        resolveName fuel st df = some (db_dir_file hash db.dir))) then
    .error (.wrongDir df)
  else if ¬(db.files.all fun kv => dbCheckVal kv.2) then
    .error (.wrongFiles df)
  else
    .ok db

/-- `db_load` (m.py lines 1334-1337): missing sidecar file (including a
dangling or looping symlink, for which `Path.exists()` is false) yields an
empty record for the requested directory; otherwise the file is read
(following symlinks) and validated. -/
def db_load (hash : String → String) (fuel : Nat) (st : Store)
    (dpath : String) : Except MErr DbRec :=
  match readFile fuel st (db_dir_file hash dpath) with
  | none => .ok ⟨dpath, []⟩
  | some rec => _db_check hash fuel st (db_dir_file hash dpath) dpath rec

/-- Python dict merge `{**fs, **changes}` preserving insertion order:
existing keys keep their position but take the value from `changes` when
present; keys only in `changes` are appended in `changes` order. -/
def pyMerge (fs changes : Files) : Files :=
  (fs.map fun kv => (kv.1, (flookup changes kv.1).getD kv.2)) ++
    changes.filter fun kv => (flookup fs kv.1).isNone

/-- The comprehension filter of `db_update`:
`{ k:v for k,v in ... if v != UNMARK }` — Python `v != UNMARK` is false for
`False` and for `0` (`0 == False`), so both are pruned. -/
def pyPrune (l : Files) : Files :=
  l.filter fun kv => !(pyEqFalse kv.2)

/-- `db_update` (m.py lines 1340-1349): load (through alias resolution),
merge the changes over the existing entries, prune unmark-sentinel values,
re-validate, and overwrite the owning sidecar file
`db_dir_file(db["dir"])` (writes follow symlinks, like `open("w")`). -/
def db_update (hash : String → String) (fuel : Nat) (st : Store)
    (dpath : String) (changes : Files) : Except MErr Store := do
  let db ← db_load hash fuel st dpath
  let dpath_ := db.dir
  let df := db_dir_file hash dpath_
  let fs_ := pyPrune (pyMerge db.files changes)
  let db_ ← _db_check hash fuel st df dpath_ ⟨dpath_, fs_⟩
  match resolveName fuel st df with
  | some wn => .ok (storeSet st wn (.file db_))
  | none => .error (.symlinkLoop df)

/-- A sequence of `db_update` calls, each applied to the store produced by
the previous one (aborting on the first error, as each call raises). -/
def db_update_seq (hash : String → String) (fuel : Nat) (st : Store)
    (ops : List (String × Files)) : Except MErr Store :=
  ops.foldlM (fun s op => db_update hash fuel s op.1 op.2) st

/-- `db_dirs` (m.py lines 1377-1381): every non-symlink sidecar file's
declared directory and files mapping (no validation on this path). -/
def db_dirs (st : Store) : List (String × Files) :=
  st.filterMap fun ne =>
    match ne.2 with
    | .file r => some (r.dir, r.files)
    | .link _ => none

/-- `db_t` (m.py lines 1373-1375): stored resume seconds for a file:
`t if type(t) is int and t > 0 else None` (again `type` excludes `True`). -/
def db_t (fs : Files) (fn : String) : Option Int :=
  match flookup fs fn with
  | some (.jint n) => if 0 < n then some n else none
  | _ => none

/-- Python string `<` (lexicographic by code point) on char lists. -/
def lcLt : List Char → List Char → Bool
  | [], [] => false
  | [], _ :: _ => true
  | _ :: _, [] => false
  | a :: as, b :: bs =>
    if a.toNat < b.toNat then true
    else if a.toNat = b.toNat then lcLt as bs
    else false

/-- Python string `<` on strings. -/
def strLtB (a b : String) : Bool := lcLt a.data b.data

/-- Insert into an ascending list (helper for `sorted_`). -/
def insertSorted (x : String) : List String → List String
  | [] => [x]
  | y :: ys => if strLtB y x then y :: insertSorted x ys else x :: y :: ys

/-- `sorted_` (m.py lines 1529-1533) with the default toggles
(`IGNORECASE = NUMERICSORT = False`): plain ascending sort by code point. -/
def sorted_ (l : List String) : List String := l.foldr insertSorted []

/-- Insert a key-value pair into a key-ascending association list. -/
def insSortedPair {α : Type} (x : String × α) :
    List (String × α) → List (String × α)
  | [] => [x]
  | y :: ys => if strLtB y.1 x.1 then y :: insSortedPair x ys else x :: y :: ys

/-- `sorted_` over the keys of an association list (Python iterates
`for d in sorted_(data)` over a dict and looks each key up). -/
def sortByKey {α : Type} (l : List (String × α)) : List (String × α) :=
  l.foldr insSortedPair []

/-- Python dict insertion `data[k] = v` on an association list. -/
def dictInsert {α : Type} : List (String × α) → String → α → List (String × α)
  | [], k, v => [(k, v)]
  | (k', v') :: rest, k, v =>
    if k' = k then (k', v) :: rest else (k', v') :: dictInsert rest k v

/-- `pathlib.PurePath.suffix`: the extension from the last `.`, provided the
dot is neither the first nor the last character of the name. -/
def pySuffix (n : String) : String :=
  let cs := n.data
  match (List.range cs.length).filter (fun i => cs.get? i = some '.') with
  | [] => ""
  | is =>
    let i := is.getLast!
    if 0 < i ∧ i < cs.length - 1 then ⟨cs.drop i⟩ else ""

/-- `str.lower` restricted to ASCII (all extensions and claim inputs are
ASCII). -/
def strToLower (s : String) : String := ⟨s.data.map Char.toLower⟩

/-- `dir_files` (m.py lines 1305-1307) with `SHOW_HIDDEN = False`:
the regular files of the directory (the parameter `w` maps a directory path
to the names of its regular-file entries, i.e. the `is_file()` survivors of
`iterdir`), minus hidden names, restricted to media extensions
(case-insensitively), sorted. -/
def dir_files (w : String → List String) (dpath : String) : List String :=
  sorted_ ((w dpath).filter fun n =>
    (match n.data with | '.' :: _ => false | _ => true) &&
    EXTS.contains (strToLower (pySuffix n)))

/-- `_state_in_db` (m.py lines 1278-1280):
`"playing" if type(what) is int and what > 0 else {SKIP: "skip",
DONE: "done"}[what]`.  The dict lookup uses Python `==` with keys `-1` and
`True`; any other value raises `KeyError`, modelled as `none`. -/
def _state_in_db : JVal → Option String
  | .jint n =>
    if 0 < n then some "playing"
    else if n = -1 then some "skip" else none
  | .jbool true => some "done"
  | _ => none

/-- `_state` (m.py lines 1274-1275): classification of a file against the
files mapping: absent ⇒ `"new"`. -/
def _state (fn : String) (fs : Files) : Option String :=
  match flookup fs fn with
  | some v => _state_in_db v
  | none => some "new"

/-- `dir_iter` (m.py lines 1270-1272) with `fs` given (never `None` on the
paths modelled here): the enumerated files of the directory paired with
their classification. -/
def dir_iter (w : String → List String) (dpath : String) (fs : Files) :
    List (Option String × String) :=
  (dir_files w dpath).map fun fn => (_state fn fs, fn)

/-- `_dir_count` (m.py lines 1291-1295): counts of `"playing"` and `"new"`
classifications; a `KeyError` from `_state_in_db` aborts the iteration
(`none`). -/
def _dir_count : List (Option String × String) → Option (Nat × Nat)
  | [] => some (0, 0)
  | (st?, _) :: rest => do
    let s ← st?
    let (p, n) ← _dir_count rest
    pure (p + (if s = "playing" then 1 else 0),
          n + (if s = "new" then 1 else 0))

/-- The loop of `do_todo_dirs` (m.py lines 1191-1198): `data` is the dict
being built, `nodir` the list of nonexistent directories. -/
def todoLoop (exq : String → Bool) (w : String → List String) :
    List (String × Files) → List (String × (Nat × Nat)) → List String →
    Option (List (String × (Nat × Nat)) × List String)
  | [], data, nodir => some (data, nodir)
  | (p, fs) :: rest, data, nodir =>
    if exq p then
      match _dir_count (dir_iter w p fs) with
      | none => none
      | some c =>
        if c.1 + c.2 ≠ 0 then todoLoop exq w rest (dictInsert data p c) nodir
        else todoLoop exq w rest data nodir
    else todoLoop exq w rest data (nodir ++ [p])

/-- `do_todo_dirs` (m.py lines 1190-1206): iterates `db_dirs()`; existing
directories are counted via `dir_iter`, nonexistent ones are collected as
ignorable warnings; output is sorted (`sorted_(data)` / `sorted_(nodir)`).
`exq` is `Path.exists` and `w` the directory listing (regular files). -/
def do_todo_dirs (st : Store) (exq : String → Bool)
    (w : String → List String) :
    Option (List (String × (Nat × Nat)) × List String) :=
  (todoLoop exq w (db_dirs st) [] []).map fun dn =>
    (sortByKey dn.1, sorted_ dn.2)

/-- Follows the spec's words for claim C2 (`todo_directories`), for
comparison with `do_todo_dirs`: "computes in-directory (not recursive)
playing/new counts from its stored `files` map directly (no live
filesystem re-scan) and includes it only if the sum is nonzero;
directories whose path no longer exists ... reported separately".
Counting from the stored map means classifying each stored entry's value;
an entry's classification is never `"new"` (absence is `new`). -/
def todo_directories_spec (records : List (String × Files))
    (exq : String → Bool) : List (String × (Nat × Nat)) × List String :=
  let counted := (records.filter fun r => exq r.1).map fun r =>
    (r.1, ((r.2.countP fun kv => _state_in_db kv.2 = some "playing"),
           (r.2.countP fun kv => _state_in_db kv.2 = some "new")))
  (sortByKey (counted.filter fun rc => rc.2.1 + rc.2.2 ≠ 0),
   sorted_ ((records.filter fun r => exq r.1 = false).map (·.1)))

/-- Digit-string test: the `\d+` components of the `FILESPEC` regex. -/
def strDigits (cs : List Char) : Bool :=
  !cs.isEmpty && cs.all (·.isDigit)

/-- Split a char list on a separator char (Python `str.split(sep)`:
`"" ↦ [""]`, separators at the ends produce empty pieces). -/
def splitOnChar (sep : Char) : List Char → List (List Char)
  | [] => [[]]
  | c :: rest =>
    let r := splitOnChar sep rest
    if c = sep then [] :: r
    else
      match r with
      | [] => [[c]]
      | p :: ps => (c :: p) :: ps

/-- One comma-piece of the `FILESPEC` regex: `\d+(-\d+)?`. -/
def pieceMatch (pt : List Char) : Bool :=
  match splitOnChar '-' pt with
  | [a] => strDigits a
  | [a, b] => strDigits a && strDigits b
  | _ => false

/-- `re.fullmatch(FILESPEC, spec)` with
`FILESPEC = all|(\d+(-\d+)?,)*(\d+(-\d+)?)` (m.py line 741). -/
def filespecMatch (spec : String) : Bool :=
  spec = "all" || (splitOnChar ',' spec.data).all pieceMatch

/-- `int()` on a digit string. -/
def digitsToNat (cs : List Char) : Nat :=
  cs.foldl (fun a c => a * 10 + (c.toNat - 48)) 0

/-- `a, b = map(int, pt.split("-") if "-" in pt else [pt, pt])`
(m.py line 1131); `none` models the `ValueError`/unpacking failure that
cannot occur once the regex matched. -/
def parsePiece (pt : List Char) : Option (Nat × Nat) :=
  if pt.contains '-' then
    match splitOnChar '-' pt with
    | [a, b] =>
      if strDigits a && strDigits b then some (digitsToNat a, digitsToNat b)
      else none
    | _ => none
  else if strDigits pt then some (digitsToNat pt, digitsToNat pt)
  else none

/-- All comma-pieces of a numeric selection expression. -/
def parsePieces (spec : String) : Option (List (Nat × Nat)) :=
  (splitOnChar ',' spec.data).mapM parsePiece

/-- The loop of the numeric branch of `_files_from_spec` (m.py lines
1129-1136): each endpoint is validated against `1..=N` (first `a`, then
`b`), then the 1-based inclusive slice `files[a-1:b]` is added to the set
`ret`. -/
def resolvePiecesAux (files : List String) :
    List (Nat × Nat) → List String → Except MErr (List String)
  | [], ret => .ok (sorted_ ret.dedup)
  | (a, b) :: rest, ret =>
    if ¬(1 ≤ a ∧ a ≤ files.length) then .error (.outOfRange a)
    else if ¬(1 ≤ b ∧ b ≤ files.length) then .error (.outOfRange b)
    else resolvePiecesAux files rest (ret ++ (files.drop (a - 1)).take (b - (a - 1)))

/-- The numeric branch of `_files_from_spec`: `ret = set(); ...;
return sorted_(ret)`. -/
def resolvePieces (files : List String) (pieces : List (Nat × Nat)) :
    Except MErr (List String) :=
  resolvePiecesAux files pieces []

/-- Python `str.endswith` on char lists: `e` is a suffix of `s`. -/
def lcIsSuffix (e s : List Char) : Bool :=
  s.drop (s.length - e.length) == e

/-- `_files_from_spec` (m.py lines 1120-1139).  `checkFn` abstracts
`check_filename(dpath, spec, must_exist)` (a filesystem check) for the
media-extension branch; `files` is `dir_files(dpath)`. -/
def _files_from_spec (checkFn : String → Except MErr String)
    (files : List String) (fs : Files) (spec : String) :
    Except MErr (List String) :=
  if EXTS.any (fun ext => lcIsSuffix ext.data (strToLower spec).data) then
    (checkFn spec).map fun fn => [fn]
  else if spec ∈ STATES ∨ filespecMatch spec then
    if spec = "all" then .ok files
    else if spec ∈ STATES then
      .ok (files.filter fun fn => _state fn fs = some spec)
    else
      match parsePieces spec with
      | some pieces => resolvePieces files pieces
      | none => .error (.invalidSpec spec)
  else .error (.invalidSpec spec)

/-- A failure of the external player invocation: `FileNotFoundError`
(executable not found) or `subprocess.CalledProcessError` (abnormal exit). -/
inductive PlayerFailure where
  | notFound (strerror : String)
  | exitedAbnormally (returncode : Int)
deriving DecidableEq, Repr

/-- `e.strerror if hasattr(e, "strerror") else str(e)` (m.py line 1393). -/
def playerFailureMsg : PlayerFailure → String
  | .notFound s => s
  | .exitedAbnormally c =>
    "Command returned non-zero exit status " ++ toString c ++ "."

/-- The start-offset computation of `play_file` (m.py line 1387):
`t_ = max(0, t - CONT_BACK) if t else 0` where `t = db_t(fs, fn)`
(`t` is `None` or a strictly positive int; the `if t` truthiness test is
also false for 0). -/
def cont_start (t : Option Int) : Int :=
  match t with
  | some v => if v = 0 then 0 else max 0 (v - CONT_BACK)
  | none => 0

/-- `play_file` (m.py lines 1386-1396).  `player` abstracts
`PLAYERS[player or PLAYER]`: it is given the file path and start offset and
either returns the reconciled value `t2` or fails.  The result is the store
after the call together with the error raised, if any: on a player failure
an `MError` naming the file and the cause is raised before any database
access, so the store is returned unchanged. -/
def play_file (hash : String → String) (fuel : Nat)
    (player : String → Int → Except PlayerFailure JVal)
    (st : Store) (dpath : String) (fs : Files) (fn : String) :
    Store × Option MErr :=
  let t := db_t fs fn
  let t_ := cont_start t
  match player (dpath ++ "/" ++ fn) t_ with
  | .error e => (st, some (.cantPlay fn (playerFailureMsg e)))
  | .ok t2 =>
    match db_update hash fuel st dpath [(fn, t2)] with
    | .ok st' => (st', none)
    | .error m => (st, some m)

/-- The reconciliation of `mpv_play` (m.py line 1447) after its output
parse produced elapsed seconds `t_` and total seconds `tot` (both from
`s2secs`, hence natural numbers):
`return t_ or UNMARK if t_ + END_SECS < tot else DONE`, i.e.
`(t_ or UNMARK) if (t_ + END_SECS < tot) else DONE` — `t_ or UNMARK` is
the unmark sentinel when the reported position is 0. -/
def mpv_play (t_ tot : Nat) : JVal :=
  if t_ + END_SECS < tot then
    (if t_ = 0 then UNMARK else .jint t_)
  else DONE

/-- The filesystem facts `do_alias_dir` consults outside the sidecar
directory: `Path.is_dir`, full `Path.resolve` on directory paths, plus the
sidecar store itself. -/
structure World where
  isDir : String → Bool
  resolvePath : String → String
  store : Store

/-- `PurePosixPath.is_absolute`. -/
def isAbsolute (p : String) : Bool :=
  match p.data with
  | '/' :: _ => true
  | _ => false

/-- `do_alias_dir` (m.py lines 1144-1158): precondition checks in source
order, then `df_a.symlink_to(df_t.name)` — a relative symbolic link in the
sidecar directory whose content is the target's sidecar file name.  The
result pairs the world after the call with the error raised, if any;
every failure leaves the world unchanged. -/
def do_alias_dir (hash : String → String) (fuel : Nat) (w : World)
    (dpath target : String) : World × Option MErr :=
  let df_a := db_dir_file hash dpath
  let df_t := db_dir_file hash target
  if ¬w.isDir target then (w, some (.notADirectory target))
  else if ¬isAbsolute target then (w, some (.relativePath target))
  else if w.resolvePath dpath ≠ w.resolvePath target then
    (w, some (.pathMismatch dpath target))
  else if pathExists fuel w.store df_a then (w, some (.alreadyExists df_a))
  else if ¬pathExists fuel w.store df_t then (w, some (.notIndexed df_t))
  else ({ w with store := storeSet w.store df_a (.link df_t) }, none)

/-! ## Association-list toolkit -/

/-- Keys of a Python dict are unique; loaded records and change sets are
dicts, so this is the standing well-formedness assumption where needed. -/
abbrev keysNodup {α : Type} (l : List (String × α)) : Prop :=
  (l.map Prod.fst).Nodup

/-- Fixture for the C9 witness: constant stand-in for the SHA-1 digest. -/
def aliasDemoHash : String → String := fun _ => "H"

/-- Fixture for the C9 witness: `/s` and `/t` resolve to the same canonical
location; `/t` is an existing, indexed directory; `/s` has no sidecar. -/
def aliasDemoWorld : World :=
  ⟨fun p => p == "/t", fun _ => "/r",
   [(db_dir_file aliasDemoHash "/t", .file ⟨"/t", []⟩)]⟩

/-- Every record persisted in the store has only valid values: the done
marker, a strictly positive integer, or -1. -/
def validStore (st : Store) : Prop :=
  ∀ n r, storeGet st n = some (.file r) →
    ∀ kv, kv ∈ r.files → dbCheckVal kv.2 = true

deriving instance DecidableEq for Except

/-- Fixture for the C3 witness: constant stand-in for the SHA-1 digest. -/
def c3Hash : String → String := fun _ => "H"

/-- Fixture for the C3 witness: the target directory's record. -/
def c3RecB : DbRec := ⟨"/b", [("y.mkv", JVal.jint (-1))]⟩

/-- Fixture for the C3 witness: `/a`'s sidecar is a symbolic link to
`/b`'s sidecar file, which holds `/b`'s record. -/
def c3Store : Store :=
  [(db_dir_file c3Hash "/a", .link (db_dir_file c3Hash "/b")),
   (db_dir_file c3Hash "/b", .file c3RecB)]

/-- Recursion-structured form of the `do_todo_dirs` loop (no accumulators),
used to characterize its output. -/
def todoCore (exq : String → Bool) (w : String → List String) :
    List (String × Files) →
    Option (List (String × (Nat × Nat)) × List String)
  | [] => some ([], [])
  | (p, fs) :: rest =>
    if exq p then
      match _dir_count (dir_iter w p fs) with
      | none => none
      | some c =>
        (todoCore exq w rest).map fun dn =>
          ((if c.1 + c.2 ≠ 0 then (p, c) :: dn.1 else dn.1), dn.2)
    else
      (todoCore exq w rest).map fun dn => (dn.1, p :: dn.2)

theorem flookup_append (l1 l2 : Files) (g : String) :
    flookup (l1 ++ l2) g =
      (match flookup l1 g with
       | some v => some v
       | none => flookup l2 g) := by
  induction l1 with
  | nil => simp [flookup]
  | cons kv rest ih =>
    obtain ⟨k, v⟩ := kv
    by_cases h : k = g <;> simp [flookup, h, ih]

theorem flookup_mergeMap (fs ch : Files) (g : String) :
    flookup (fs.map fun kv => (kv.1, (flookup ch kv.1).getD kv.2)) g =
      (flookup fs g).map fun v => (flookup ch g).getD v := by
  induction fs with
  | nil => simp [flookup]
  | cons kv rest ih =>
    obtain ⟨k, v⟩ := kv
    by_cases h : k = g
    · subst h; simp [flookup]
    · simp [flookup, h, ih]

theorem flookup_mergeFilter (fs ch : Files) (g : String) :
    flookup (ch.filter fun kv => (flookup fs kv.1).isNone) g =
      (if (flookup fs g).isNone then flookup ch g else none) := by
  induction ch with
  | nil => simp [flookup]
  | cons kv rest ih =>
    obtain ⟨k, v⟩ := kv
    by_cases h : k = g
    · subst h
      cases hfs : (flookup fs k).isNone <;>
        simp [List.filter_cons, flookup, hfs, ih]
    · cases hfs : (flookup fs k).isNone <;>
        simp [List.filter_cons, flookup, h, hfs, ih]

theorem flookup_eq_none {l : Files} {g : String} :
    flookup l g = none ↔ g ∉ l.map Prod.fst := by
  induction l with
  | nil => simp [flookup]
  | cons kv rest ih =>
    obtain ⟨k, v⟩ := kv
    by_cases h : k = g
    · subst h; simp [flookup]
    · simp only [flookup, if_neg h, List.map_cons, List.mem_cons, ih]
      constructor
      · intro hmem hor
        rcases hor with hgk | hmem2
        · exact h hgk.symm
        · exact hmem hmem2
      · intro hcon
        exact fun hm => hcon (Or.inr hm)

theorem flookup_some_mem {l : Files} {g : String} {v : JVal}
    (h : flookup l g = some v) : (g, v) ∈ l := by
  induction l with
  | nil => simp [flookup] at h
  | cons kv rest ih =>
    obtain ⟨k, w⟩ := kv
    by_cases hk : k = g
    · subst hk
      simp [flookup] at h
      simp [h]
    · simp [flookup, hk] at h
      exact List.mem_cons_of_mem _ (ih h)

/-- Lookup in a Python dict merge: the changes win, otherwise the existing
entry. -/
theorem flookup_pyMerge (fs ch : Files) (g : String) :
    flookup (pyMerge fs ch) g =
      (match flookup ch g with
       | some v => some v
       | none => flookup fs g) := by
  unfold pyMerge
  rw [flookup_append, flookup_mergeMap, flookup_mergeFilter]
  cases hfs : flookup fs g with
  | none => cases hch : flookup ch g <;> simp [hfs, hch]
  | some v => cases hch : flookup ch g <;> simp [hfs, hch]

/-- Lookup after the unmark-prune filter, on a dict (unique keys). -/
theorem flookup_pyPrune {l : Files} (hl : keysNodup l) (g : String) :
    flookup (pyPrune l) g =
      (flookup l g).bind fun v => if pyEqFalse v then none else some v := by
  induction l with
  | nil => simp [pyPrune, flookup]
  | cons kv rest ih =>
    obtain ⟨k, v⟩ := kv
    have hnc := List.nodup_cons.mp hl
    have hrest : keysNodup rest := hnc.2
    have hk : k ∉ rest.map Prod.fst := hnc.1
    by_cases hkg : k = g
    · subst hkg
      by_cases hp : pyEqFalse v
      · have h1 : flookup rest k = none := flookup_eq_none.mpr hk
        have h2 : flookup (rest.filter fun kv => !(pyEqFalse kv.2)) k = none := by
          have h3 := ih hrest
          rw [h1] at h3
          simpa [pyPrune] using h3
        simp [pyPrune, List.filter_cons, flookup, hp, h2]
      · simp [pyPrune, List.filter_cons, flookup, hp]
    · by_cases hp : pyEqFalse v
      · have := ih hrest
        simp [pyPrune, List.filter_cons, flookup, hkg, hp] at this ⊢
        exact this
      · have := ih hrest
        simp [pyPrune, List.filter_cons, flookup, hkg, hp] at this ⊢
        exact this

theorem storeGet_storeSet (st : Store) (n : String) (e : Entry)
    (m : String) :
    storeGet (storeSet st n e) m =
      if n = m then some e else storeGet st m := by
  induction st with
  | nil => simp [storeSet, storeGet]
  | cons kv rest ih =>
    obtain ⟨k, v⟩ := kv
    by_cases hk : k = n
    · subst hk
      by_cases hm : k = m <;> simp [storeSet, storeGet, hm]
    · by_cases hm : k = m
      · subst hm
        have hnm : ¬(n = k) := fun h => hk h.symm
        simp [storeSet, storeGet, hk, hnm]
      · simp [storeSet, storeGet, hk, hm, ih]

/-! ## C6: resume start offset -/

theorem db_t_pos {fs : Files} {fn : String} {s : Int}
    (h : db_t fs fn = some s) : 0 < s := by
  unfold db_t at h
  rcases hv : flookup fs fn with _ | v
  · rw [hv] at h; simp at h
  · rw [hv] at h
    cases v with
    | jint n =>
      by_cases hn : 0 < n
      · simp [hn] at h; omega
      · simp [hn] at h
    | jbool b => simp at h
    | jnull => simp at h
    | jstr s' => simp at h

/-- C6: the start offset of `play_file` is 0 when there is no stored resume
point (`db_t` is `None`) and `max(0, stored - CONT_BACK)` when the stored
resume point is `stored` (with `CONT_BACK = 5`). -/
theorem c6_start_offset (fs : Files) (fn : String) :
    (db_t fs fn = none → cont_start (db_t fs fn) = 0)
    ∧ (∀ s : Int, db_t fs fn = some s →
        cont_start (db_t fs fn) = max 0 (s - CONT_BACK)) := by
  constructor
  · intro h; rw [h]; rfl
  · intro s h
    have hs : 0 < s := db_t_pos h
    have hs0 : ¬(s = 0) := by omega
    rw [h]
    simp [cont_start, hs0]

/-- Witness for C6 at the spec's concrete inputs: stored 121 ↦ offset 116,
stored 3 ↦ offset 0 (clamped), no stored resume point ↦ offset 0. -/
theorem c6_start_offset_witness :
    db_t [("z.mkv", JVal.jint 121)] "z.mkv" = some 121 ∧
    cont_start (db_t [("z.mkv", JVal.jint 121)] "z.mkv") = 116 ∧
    db_t [("y.mkv", JVal.jint 3)] "y.mkv" = some 3 ∧
    cont_start (db_t [("y.mkv", JVal.jint 3)] "y.mkv") = 0 ∧
    db_t ([] : Files) "x.mkv" = none ∧
    cont_start (db_t ([] : Files) "x.mkv") = 0 := by
  refine ⟨by decide, ?_, by decide, ?_, by decide, ?_⟩
  · rw [(c6_start_offset [("z.mkv", JVal.jint 121)] "z.mkv").2 121 (by decide)]
    decide
  · rw [(c6_start_offset [("y.mkv", JVal.jint 3)] "y.mkv").2 3 (by decide)]
    decide
  · exact (c6_start_offset [] "x.mkv").1 (by decide)

/-! ## C5: mpv reconciliation -/

/-- Counterexample to C5 as stated: elapsed 200 of a total of exactly 205
seconds (which is "at least 205") reconciles to `DONE`, not to
`Playing(200)`: `200 + END_SECS < 205` is false. -/
theorem c5_counterexample :
    mpv_play 200 205 = DONE ∧ mpv_play 200 205 ≠ JVal.jint 200 := by
  constructor
  · rfl
  · intro h
    simp [mpv_play, END_SECS, DONE] at h

/-- C5 (amended): elapsed within `END_SECS` of the total (including exactly
at the margin) reconciles to `DONE`; otherwise (total strictly greater than
elapsed + 5, e.g. total ≥ 206 for elapsed 200) the elapsed position becomes
the stored `Playing` value, with a reported 0 collapsing to the unmark
sentinel. -/
theorem c5_mpv_reconcile (t_ tot : Nat) :
    (tot ≤ t_ + END_SECS → mpv_play t_ tot = DONE)
    ∧ (t_ + END_SECS < tot → 0 < t_ → mpv_play t_ tot = JVal.jint t_)
    ∧ (t_ + END_SECS < tot → t_ = 0 → mpv_play t_ tot = UNMARK)
    ∧ (t_ = 200 → 206 ≤ tot → mpv_play t_ tot = JVal.jint 200) := by
  refine ⟨?_, ?_, ?_, ?_⟩
  · intro h
    have : ¬(t_ + END_SECS < tot) := by omega
    simp [mpv_play, this]
  · intro h h0
    have : ¬(t_ = 0) := by omega
    simp [mpv_play, h, this]
  · intro h h0
    subst h0
    unfold mpv_play
    rw [if_pos h]
    simp
  · intro h h206
    subst h
    have h1 : 200 + END_SECS < tot := by
      simp only [END_SECS]; omega
    have h2 : ¬(200 = 0) := by omega
    simp [mpv_play, h1, h2]

/-- Witness for C5 (amended) at elapsed 200, total 206 and total 205. -/
theorem c5_mpv_reconcile_witness :
    (206 ≤ 206 ∧ mpv_play 200 206 = JVal.jint 200) ∧
    (205 ≤ 200 + END_SECS ∧ mpv_play 200 205 = DONE) := by
  refine ⟨⟨by decide, (c5_mpv_reconcile 200 206).2.2.2 rfl (by decide)⟩,
          ⟨by decide, (c5_mpv_reconcile 200 205).1 (by decide)⟩⟩

/-! ## C7, C10: numeric selection -/

theorem lcLt_irrefl : ∀ (a : List Char), lcLt a a = false := by
  intro a
  induction a with
  | nil => rfl
  | cons c cs ih => simp [lcLt, ih]

theorem lcLt_asymm : ∀ (a b : List Char), lcLt a b = true → lcLt b a = false := by
  intro a
  induction a with
  | nil =>
    intro b h
    cases b with
    | nil => simp [lcLt] at h
    | cons c cs => simp [lcLt]
  | cons c cs ih =>
    intro b h
    cases b with
    | nil => simp [lcLt] at h
    | cons d ds =>
      simp only [lcLt] at h ⊢
      by_cases h1 : c.toNat < d.toNat
      · have h2 : ¬(d.toNat < c.toNat) := by omega
        have h3 : ¬(d.toNat = c.toNat) := by omega
        simp [h2, h3]
      · by_cases h2 : c.toNat = d.toNat
        · have h3 : ¬(d.toNat < c.toNat) := by omega
          simp [h1, h2] at h
          simp [h3, h2.symm, ih ds h]
        · simp [h1, h2] at h

theorem strLtB_asymm (a b : String) (h : strLtB a b = true) :
    strLtB b a = false :=
  lcLt_asymm a.data b.data h

theorem strLtB_ne (a b : String) (h : strLtB a b = true) : a ≠ b := by
  intro hab
  subst hab
  rw [strLtB, lcLt_irrefl] at h
  exact Bool.false_ne_true h

/-- Reaching the numeric branch of `_files_from_spec`. -/
theorem files_from_spec_numeric (checkFn : String → Except MErr String)
    (files : List String) (fs : Files) (spec : String)
    (pieces : List (Nat × Nat))
    (hext : (EXTS.any fun ext => lcIsSuffix ext.data (strToLower spec).data)
            = false)
    (hst : spec ∉ STATES) (hall : spec ≠ "all")
    (hm : filespecMatch spec = true)
    (hp : parsePieces spec = some pieces) :
    _files_from_spec checkFn files fs spec = resolvePieces files pieces := by
  unfold _files_from_spec
  rw [hext]
  simp only [Bool.false_eq_true, if_false]
  rw [if_pos (Or.inr hm)]
  rw [if_neg hall, if_neg hst, hp]

/-- The general content of C10: a descending range whose endpoints are both
in `1..=N` passes validation and contributes the empty slice. -/
theorem resolvePiecesAux_desc (files : List String)
    (rest : List (Nat × Nat)) (ret : List String) (a b : Nat)
    (ha1 : 1 ≤ a) (ha2 : a ≤ files.length)
    (hb1 : 1 ≤ b) (hb2 : b ≤ files.length) (hba : b < a) :
    resolvePiecesAux files ((a, b) :: rest) ret =
      resolvePiecesAux files rest ret := by
  unfold resolvePiecesAux
  rw [if_neg (show ¬¬(1 ≤ a ∧ a ≤ files.length) by omega)]
  rw [if_neg (show ¬¬(1 ≤ b ∧ b ≤ files.length) by omega)]
  have hz : b - (a - 1) = 0 := by omega
  rw [hz]
  simp only [List.take_zero, List.append_nil]
  rw [resolvePiecesAux.eq_def]

/-- One step of the numeric-resolution loop (definitional). -/
theorem resolvePiecesAux_cons (files : List String)
    (rest : List (Nat × Nat)) (ret : List String) (a b : Nat) :
    resolvePiecesAux files ((a, b) :: rest) ret =
      (if ¬(1 ≤ a ∧ a ≤ files.length) then .error (.outOfRange a)
       else if ¬(1 ≤ b ∧ b ≤ files.length) then .error (.outOfRange b)
       else resolvePiecesAux files rest
         (ret ++ (files.drop (a - 1)).take (b - (a - 1)))) := rfl

/-- The general content of C7's validation clause: if any referenced
endpoint is outside `1..=N`, the resolution fails with an out-of-range
error whose reported index is itself outside `1..=N`. -/
theorem resolvePiecesAux_oor (files : List String) :
    ∀ (pieces : List (Nat × Nat)) (ret : List String) (a b : Nat),
      (a, b) ∈ pieces →
      (¬(1 ≤ a ∧ a ≤ files.length) ∨ ¬(1 ≤ b ∧ b ≤ files.length)) →
      ∃ x, resolvePiecesAux files pieces ret = .error (.outOfRange x) ∧
        ¬(1 ≤ x ∧ x ≤ files.length) := by
  intro pieces
  induction pieces with
  | nil =>
    intro ret a b h
    simp at h
  | cons p rest ih =>
    intro ret a b hmem hbad
    obtain ⟨c, d⟩ := p
    by_cases hc : 1 ≤ c ∧ c ≤ files.length
    · by_cases hd : 1 ≤ d ∧ d ≤ files.length
      · rcases List.mem_cons.mp hmem with heq | hmem2
        · exfalso
          have h1 : a = c := congrArg Prod.fst heq
          have h2 : b = d := congrArg Prod.snd heq
          subst h1; subst h2
          rcases hbad with h | h
          · exact h hc
          · exact h hd
        · rw [resolvePiecesAux_cons,
              if_neg (not_not_intro hc), if_neg (not_not_intro hd)]
          exact ih _ a b hmem2 hbad
      · refine ⟨d, ?_, hd⟩
        rw [resolvePiecesAux_cons, if_neg (not_not_intro hc), if_pos hd]
    · refine ⟨c, ?_, hc⟩
      rw [resolvePiecesAux_cons, if_pos hc]

/-- C10: a descending in-range index range `a-b` (`a > b`) passes
validation and contributes nothing (neither rejected nor reversed);
in particular `"3-2"` over an enumeration of 5 files resolves to the
empty file set. -/
theorem c10_descending_range (checkFn : String → Except MErr String)
    (files : List String) (fs : Files) :
    (∀ (rest : List (Nat × Nat)) (ret : List String) (a b : Nat),
       1 ≤ a → a ≤ files.length → 1 ≤ b → b ≤ files.length → b < a →
       resolvePiecesAux files ((a, b) :: rest) ret =
         resolvePiecesAux files rest ret)
    ∧ (files.length = 5 →
       _files_from_spec checkFn files fs "3-2" = .ok []) := by
  constructor
  · intro rest ret a b ha1 ha2 hb1 hb2 hba
    exact resolvePiecesAux_desc files rest ret a b ha1 ha2 hb1 hb2 hba
  · intro h5
    rw [files_from_spec_numeric checkFn files fs "3-2" [(3, 2)]
        (by decide) (by decide) (by decide) (by decide) (by decide)]
    unfold resolvePieces
    rw [resolvePiecesAux_desc files [] [] 3 2 (by omega) (by omega)
        (by omega) (by omega) (by omega)]
    rfl

/-- Witness for C10 over a concrete enumeration of 5 files. -/
theorem c10_descending_range_witness :
    (1 ≤ 3 ∧ 3 ≤ (["a.mkv", "b.mkv", "c.mkv", "d.mkv", "e.mkv"] :
        List String).length ∧ 2 < 3 ∧
      (["a.mkv", "b.mkv", "c.mkv", "d.mkv", "e.mkv"] :
        List String).length = 5) ∧
    resolvePiecesAux ["a.mkv", "b.mkv", "c.mkv", "d.mkv", "e.mkv"]
        [(3, 2)] [] =
      resolvePiecesAux ["a.mkv", "b.mkv", "c.mkv", "d.mkv", "e.mkv"] [] [] ∧
    _files_from_spec (fun s => .error (.invalidSpec s))
        ["a.mkv", "b.mkv", "c.mkv", "d.mkv", "e.mkv"] [] "3-2" = .ok [] :=
  ⟨by decide,
   (c10_descending_range (fun s => .error (.invalidSpec s))
       ["a.mkv", "b.mkv", "c.mkv", "d.mkv", "e.mkv"] []).1 [] [] 3 2
     (by decide) (by decide) (by decide) (by decide) (by decide),
   (c10_descending_range (fun s => .error (.invalidSpec s))
       ["a.mkv", "b.mkv", "c.mkv", "d.mkv", "e.mkv"] []).2 (by decide)⟩

/-- C7: every referenced numeric index (both endpoints of each range) is
validated against `1..=N`; an out-of-range index makes resolution fail
with an out-of-range error.  Over an enumeration of 5 files (in the
current sort order, so ascending), `"2-3"` resolves to exactly the files
at positions 2 and 3, and `"6"` fails with the out-of-range error. -/
theorem c7_index_validation (checkFn : String → Except MErr String)
    (fs : Files) :
    (∀ (files : List String) (pieces : List (Nat × Nat)) (ret : List String)
       (a b : Nat), (a, b) ∈ pieces →
       (¬(1 ≤ a ∧ a ≤ files.length) ∨ ¬(1 ≤ b ∧ b ≤ files.length)) →
       ∃ x, resolvePiecesAux files pieces ret = .error (.outOfRange x) ∧
         ¬(1 ≤ x ∧ x ≤ files.length))
    ∧ (∀ f1 f2 f3 f4 f5 : String, strLtB f2 f3 = true →
       _files_from_spec checkFn [f1, f2, f3, f4, f5] fs "2-3" =
         .ok [f2, f3])
    ∧ (∀ f1 f2 f3 f4 f5 : String,
       _files_from_spec checkFn [f1, f2, f3, f4, f5] fs "6" =
         .error (.outOfRange 6)) := by
  refine ⟨resolvePiecesAux_oor, ?_, ?_⟩
  · intro f1 f2 f3 f4 f5 hlt
    rw [files_from_spec_numeric checkFn [f1, f2, f3, f4, f5] fs "2-3"
        [(2, 3)] (by decide) (by decide) (by decide) (by decide) (by decide)]
    unfold resolvePieces
    rw [resolvePiecesAux_cons]
    rw [if_neg (not_not_intro (by constructor <;> simp))]
    rw [if_neg (not_not_intro (by constructor <;> simp))]
    have hslice :
        (([] : List String) ++
          (([f1, f2, f3, f4, f5].drop (2 - 1)).take (3 - (2 - 1)))) =
          [f2, f3] := rfl
    rw [hslice]
    have hne : f2 ≠ f3 := strLtB_ne f2 f3 hlt
    have hdd : ([f2, f3] : List String).dedup = [f2, f3] := by
      rw [List.dedup_cons_of_not_mem (by simp [hne])]
      simp
    have hs : sorted_ [f2, f3] = [f2, f3] := by
      simp [sorted_, insertSorted, strLtB_asymm f2 f3 hlt]
    rw [resolvePiecesAux, hdd, hs]
  · intro f1 f2 f3 f4 f5
    rw [files_from_spec_numeric checkFn [f1, f2, f3, f4, f5] fs "6"
        [(6, 6)] (by decide) (by decide) (by decide) (by decide) (by decide)]
    unfold resolvePieces
    rw [resolvePiecesAux_cons]
    rw [if_pos (by simp)]

/-- Witness for C7 at a concrete enumeration (sorted, 5 files). -/
theorem c7_index_validation_witness :
    (strLtB "b.mkv" "c.mkv" = true ∧
     _files_from_spec (fun s => .error (.invalidSpec s))
         ["a.mkv", "b.mkv", "c.mkv", "d.mkv", "e.mkv"] [] "2-3" =
       .ok ["b.mkv", "c.mkv"]) ∧
    _files_from_spec (fun s => .error (.invalidSpec s))
        ["a.mkv", "b.mkv", "c.mkv", "d.mkv", "e.mkv"] [] "6" =
      .error (.outOfRange 6) ∧
    ((2, 2) ∈ ([(2, 2)] : List (Nat × Nat)) ∧
     ¬(1 ≤ 2 ∧ 2 ≤ (["a.mkv"] : List String).length) ∧
     ∃ x, resolvePiecesAux ["a.mkv"] [(2, 2)] [] =
        .error (.outOfRange x) ∧
        ¬(1 ≤ x ∧ x ≤ (["a.mkv"] : List String).length)) :=
  ⟨⟨by decide,
    (c7_index_validation (fun s => .error (.invalidSpec s)) []).2.1
      "a.mkv" "b.mkv" "c.mkv" "d.mkv" "e.mkv" (by decide)⟩,
   (c7_index_validation (fun s => .error (.invalidSpec s)) []).2.2
     "a.mkv" "b.mkv" "c.mkv" "d.mkv" "e.mkv",
   ⟨by decide, by decide,
    (c7_index_validation (fun s => .error (.invalidSpec s)) []).1
      ["a.mkv"] [(2, 2)] [] 2 2 (by decide) (Or.inl (by decide))⟩⟩

/-! ## C8: launch failure causes no database mutation -/

/-- C8: when the player invocation fails (executable not found or abnormal
exit), `play_file` raises an error naming the file and the underlying
cause, and the store (the persisted state) is returned unchanged — the
database update only happens after a successful invocation. -/
theorem c8_play_failure (hash : String → String) (fuel : Nat)
    (player : String → Int → Except PlayerFailure JVal)
    (st : Store) (dpath : String) (fs : Files) (fn : String)
    (e : PlayerFailure)
    (h : player (dpath ++ "/" ++ fn) (cont_start (db_t fs fn)) = .error e) :
    play_file hash fuel player st dpath fs fn =
      (st, some (.cantPlay fn (playerFailureMsg e))) := by
  simp only [play_file, h]

/-- Witness for C8: a player whose executable is missing; the store is a
nonempty database that stays exactly as it was. -/
theorem c8_play_failure_witness :
    (fun (_ : String) (_ : Int) =>
        (Except.error (PlayerFailure.notFound "No such file or directory") :
          Except PlayerFailure JVal))
      ("/d" ++ "/" ++ "a.mkv") (cont_start (db_t [("a.mkv", DONE)] "a.mkv"))
      = .error (.notFound "No such file or directory") ∧
    play_file (fun _ => "h") 3
      (fun _ _ => .error (.notFound "No such file or directory"))
      [("dbfile", .file ⟨"/d", [("a.mkv", DONE)]⟩)] "/d"
      [("a.mkv", DONE)] "a.mkv" =
      ([("dbfile", .file ⟨"/d", [("a.mkv", DONE)]⟩)],
       some (.cantPlay "a.mkv"
         (playerFailureMsg (.notFound "No such file or directory")))) :=
  ⟨rfl,
   c8_play_failure (fun _ => "h") 3
     (fun _ _ => .error (.notFound "No such file or directory"))
     [("dbfile", .file ⟨"/d", [("a.mkv", DONE)]⟩)] "/d"
     [("a.mkv", DONE)] "a.mkv"
     (.notFound "No such file or directory") rfl⟩

/-! ## C9: alias-creation preconditions -/

/-- C9: `do_alias_dir` checks its preconditions in source order and raises
the corresponding error with no filesystem change (the world is returned
unchanged); when all hold it creates a relative symbolic link at the
source's sidecar path whose content is the target's sidecar file name. -/
theorem c9_alias_preconditions (hash : String → String) (fuel : Nat)
    (w : World) (dpath target : String) :
    (w.isDir target = false →
      do_alias_dir hash fuel w dpath target =
        (w, some (.notADirectory target)))
    ∧ (w.isDir target = true → isAbsolute target = false →
      do_alias_dir hash fuel w dpath target =
        (w, some (.relativePath target)))
    ∧ (w.isDir target = true → isAbsolute target = true →
       w.resolvePath dpath ≠ w.resolvePath target →
      do_alias_dir hash fuel w dpath target =
        (w, some (.pathMismatch dpath target)))
    ∧ (w.isDir target = true → isAbsolute target = true →
       w.resolvePath dpath = w.resolvePath target →
       pathExists fuel w.store (db_dir_file hash dpath) = true →
      do_alias_dir hash fuel w dpath target =
        (w, some (.alreadyExists (db_dir_file hash dpath))))
    ∧ (w.isDir target = true → isAbsolute target = true →
       w.resolvePath dpath = w.resolvePath target →
       pathExists fuel w.store (db_dir_file hash dpath) = false →
       pathExists fuel w.store (db_dir_file hash target) = false →
      do_alias_dir hash fuel w dpath target =
        (w, some (.notIndexed (db_dir_file hash target))))
    ∧ (w.isDir target = true → isAbsolute target = true →
       w.resolvePath dpath = w.resolvePath target →
       pathExists fuel w.store (db_dir_file hash dpath) = false →
       pathExists fuel w.store (db_dir_file hash target) = true →
      do_alias_dir hash fuel w dpath target =
        ({ w with store := storeSet w.store (db_dir_file hash dpath) (Entry.link (db_dir_file hash target)) }, none)) := by
  refine ⟨?_, ?_, ?_, ?_, ?_, ?_⟩
  · intro h1
    simp [do_alias_dir, h1]
  · intro h1 h2
    simp [do_alias_dir, h1, h2]
  · intro h1 h2 h3
    simp [do_alias_dir, h1, h2, h3]
  · intro h1 h2 h3 h4
    simp [do_alias_dir, h1, h2, h3, h4]
  · intro h1 h2 h3 h4 h5
    simp [do_alias_dir, h1, h2, h3, h4, h5]
  · intro h1 h2 h3 h4 h5
    simp [do_alias_dir, h1, h2, h3, h4, h5]

/-- Witness for C9: the success case at a concrete world, discharging every
precondition. -/
theorem c9_alias_preconditions_witness :
    aliasDemoWorld.isDir "/t" = true ∧ isAbsolute "/t" = true ∧
    aliasDemoWorld.resolvePath "/s" = aliasDemoWorld.resolvePath "/t" ∧
    pathExists 3 aliasDemoWorld.store (db_dir_file aliasDemoHash "/s")
      = false ∧
    pathExists 3 aliasDemoWorld.store (db_dir_file aliasDemoHash "/t")
      = true ∧
    do_alias_dir aliasDemoHash 3 aliasDemoWorld "/s" "/t" =
      ({ aliasDemoWorld with
          store := storeSet aliasDemoWorld.store
            (db_dir_file aliasDemoHash "/s")
            (Entry.link (db_dir_file aliasDemoHash "/t")) }, none) := by
  refine ⟨by decide, by decide, rfl, by decide, by decide, ?_⟩
  exact (c9_alias_preconditions aliasDemoHash 3 aliasDemoWorld
    "/s" "/t").2.2.2.2.2 (by decide) (by decide) rfl (by decide) (by decide)

/-! ## C1: only valid value encodings are persisted -/

theorem _db_check_ok {hash : String → String} {fuel : Nat} {st : Store}
    {df dpath : String} {db db_ : DbRec}
    (h : _db_check hash fuel st df dpath db = .ok db_) :
    db_ = db ∧ (db.files.all fun kv => dbCheckVal kv.2) = true := by
  unfold _db_check at h
  by_cases h1 : db.dir = dpath ∨
      (df_is_symlink st df = true ∧
       resolveName fuel st df = some (db_dir_file hash db.dir))
  · rw [if_neg (not_not_intro h1)] at h
    by_cases h2 : (db.files.all fun kv => dbCheckVal kv.2) = true
    · rw [if_neg] at h
      · refine ⟨?_, h2⟩
        injection h with h3
        exact h3.symm
      · rw [h2]
        simp
    · rw [if_pos h2] at h
      exact absurd h (by simp)
  · rw [if_pos h1] at h
    exact absurd h (by simp)

theorem db_update_valid {hash : String → String} {fuel : Nat} {st : Store}
    {dpath : String} {changes : Files} {st' : Store}
    (hv : validStore st)
    (h : db_update hash fuel st dpath changes = .ok st') : validStore st' := by
  unfold db_update at h
  cases hl : db_load hash fuel st dpath with
  | error e => rw [hl] at h; simp [Bind.bind, Except.bind] at h
  | ok db =>
    rw [hl] at h
    simp only [Bind.bind, Except.bind] at h
    cases hc : _db_check hash fuel st (db_dir_file hash db.dir) db.dir
        ⟨db.dir, pyPrune (pyMerge db.files changes)⟩ with
    | error e => rw [hc] at h; simp at h
    | ok db_ =>
      rw [hc] at h
      simp only at h
      cases hw : resolveName fuel st (db_dir_file hash db.dir) with
      | none => rw [hw] at h; simp at h
      | some wn =>
        rw [hw] at h
        simp only [Except.ok.injEq] at h
        subst h
        obtain ⟨hdb, hall⟩ := _db_check_ok hc
        subst hdb
        intro n r hget kv hkv
        rw [storeGet_storeSet] at hget
        by_cases hn : wn = n
        · rw [if_pos hn] at hget
          have h5 := Option.some.inj hget
          have hr2 := Entry.file.inj h5
          subst hr2
          exact List.all_eq_true.mp hall kv hkv
        · rw [if_neg hn] at hget
          exact hv n r hget kv hkv

theorem db_update_seq_valid {hash : String → String} {fuel : Nat} :
    ∀ (ops : List (String × Files)) (st st' : Store),
      validStore st → db_update_seq hash fuel st ops = .ok st' →
      validStore st' := by
  intro ops
  induction ops with
  | nil =>
    intro st st' hv h
    unfold db_update_seq at h
    simp only [List.foldlM_nil, pure, Except.pure, Except.ok.injEq] at h
    subst h
    exact hv
  | cons op rest ih =>
    intro st st' hv h
    unfold db_update_seq at h
    rw [List.foldlM_cons] at h
    cases hu : db_update hash fuel st op.1 op.2 with
    | error e => rw [hu] at h; simp [Bind.bind, Except.bind] at h
    | ok st1 =>
      rw [hu] at h
      simp only [Bind.bind, Except.bind] at h
      exact ih st1 st' (db_update_valid hv hu) h

theorem db_load_invalid {hash : String → String} {fuel : Nat} {st : Store}
    {dpath : String} {r : DbRec}
    (hr : readFile fuel st (db_dir_file hash dpath) = some r)
    (hbad : ∃ kv, kv ∈ r.files ∧ dbCheckVal kv.2 = false) :
    ∃ e, db_load hash fuel st dpath = .error e := by
  unfold db_load
  rw [hr]
  dsimp only
  unfold _db_check
  have hfalse : (r.files.all fun kv => dbCheckVal kv.2) = false := by
    obtain ⟨kv, hmem, hf⟩ := hbad
    rw [List.all_eq_false]
    exact ⟨kv, hmem, by simp [hf]⟩
  by_cases h1 : r.dir = dpath ∨
      (df_is_symlink st (db_dir_file hash dpath) = true ∧
       resolveName fuel st (db_dir_file hash dpath) =
         some (db_dir_file hash r.dir))
  · rw [if_neg (not_not_intro h1)]
    rw [if_pos]
    · exact ⟨.wrongFiles (db_dir_file hash dpath), rfl⟩
    · rw [hfalse]
      simp
  · rw [if_pos h1]
    exact ⟨.wrongDir (db_dir_file hash dpath), rfl⟩

/-- C1: (a) starting from a store whose persisted values are all valid (in
particular the empty store), any sequence of successful `db_update` calls
leaves every persisted `files` value valid — the done marker `true`, a
strictly positive integer, or exactly `-1` (`dbCheckVal`); (b) a stored
record containing a value of any other shape does not survive a
load/validate cycle: `db_load` fails on it. -/
theorem c1_persisted_values (hash : String → String) (fuel : Nat) :
    (∀ (st : Store) (ops : List (String × Files)) (st' : Store),
       validStore st → db_update_seq hash fuel st ops = .ok st' →
       validStore st')
    ∧ (∀ (st : Store) (dpath : String) (r : DbRec),
       readFile fuel st (db_dir_file hash dpath) = some r →
       (∃ kv, kv ∈ r.files ∧ dbCheckVal kv.2 = false) →
       ∃ e, db_load hash fuel st dpath = .error e) :=
  ⟨fun _ ops _ hv h => db_update_seq_valid ops _ _ hv h,
   fun _ _ _ hr hbad => db_load_invalid hr hbad⟩

/-- Witness for C1: a fresh (empty, hence valid) store updated once, whose
result is valid; and a store holding the invalid value `0`, whose load
fails. -/
theorem c1_persisted_values_witness :
    (db_update_seq (fun _ => "H") 3 [] [("/d", [("a.mkv", DONE)])] =
      .ok [(db_dir_file (fun _ => "H") "/d",
            .file ⟨"/d", [("a.mkv", DONE)]⟩)] ∧
     validStore [(db_dir_file (fun _ => "H") "/d",
            .file ⟨"/d", [("a.mkv", DONE)]⟩)]) ∧
    (readFile 3 [(db_dir_file (fun _ => "H") "/bad",
        .file ⟨"/bad", [("b.mkv", JVal.jint 0)]⟩)]
        (db_dir_file (fun _ => "H") "/bad") =
      some ⟨"/bad", [("b.mkv", JVal.jint 0)]⟩ ∧
     dbCheckVal (JVal.jint 0) = false ∧
     ∃ e, db_load (fun _ => "H") 3 [(db_dir_file (fun _ => "H") "/bad",
        .file ⟨"/bad", [("b.mkv", JVal.jint 0)]⟩)] "/bad" = .error e) := by
  have hseq : db_update_seq (fun _ => "H") 3 [] [("/d", [("a.mkv", DONE)])] =
      .ok [(db_dir_file (fun _ => "H") "/d",
            .file ⟨"/d", [("a.mkv", DONE)]⟩)] := by decide
  have hempty : validStore [] := by
    intro n r h kv hkv
    simp [storeGet] at h
  refine ⟨⟨hseq, ?_⟩, by decide, by decide, ?_⟩
  · exact (c1_persisted_values (fun _ => "H") 3).1 [] _ _ hempty hseq
  · exact (c1_persisted_values (fun _ => "H") 3).2 _ "/bad"
      ⟨"/bad", [("b.mkv", JVal.jint 0)]⟩ (by decide)
      ⟨("b.mkv", JVal.jint 0), by decide, rfl⟩

/-! ## C4: unmark prunes; merge is last-write-wins -/

theorem keysNodup_pyMerge {fs ch : Files} (hfs : keysNodup fs)
    (hch : keysNodup ch) : keysNodup (pyMerge fs ch) := by
  unfold keysNodup pyMerge at *
  rw [List.map_append, List.nodup_append]
  refine ⟨by simpa using hfs, ?_, ?_⟩
  · exact List.Nodup.sublist ((List.filter_sublist _).map Prod.fst) hch
  · intro a ha hb
    have ha2 : a ∈ fs.map Prod.fst := by
      simpa using ha
    obtain ⟨kv, hkv, hfst⟩ := List.mem_map.mp hb
    have hprop := List.of_mem_filter hkv
    rw [hfst] at hprop
    have : flookup fs a = none := by
      cases hfl : flookup fs a
      · rfl
      · rw [hfl] at hprop; simp at hprop
    exact (flookup_eq_none.mp this) ha2

theorem mem_pyPrune {l : Files} {kv : String × JVal}
    (h : kv ∈ pyPrune l) : kv ∈ l ∧ pyEqFalse kv.2 = false := by
  unfold pyPrune at h
  refine ⟨List.mem_of_mem_filter h, ?_⟩
  have := List.of_mem_filter h
  simpa using this

theorem mem_pyMerge_val {fs ch : Files} {kv : String × JVal}
    (h : kv ∈ pyMerge fs ch) :
    (∃ kv', kv' ∈ fs ∧ kv.2 = kv'.2) ∨
    (∃ kv', kv' ∈ ch ∧ kv.2 = kv'.2) := by
  unfold pyMerge at h
  rcases List.mem_append.mp h with h1 | h2
  · obtain ⟨kv', hkv', heq⟩ := List.mem_map.mp h1
    cases hfl : flookup ch kv'.1 with
    | none =>
      left
      refine ⟨kv', hkv', ?_⟩
      rw [← heq, hfl]
      rfl
    | some w =>
      right
      refine ⟨(kv'.1, w), flookup_some_mem hfl, ?_⟩
      rw [← heq, hfl]
      rfl
  · exact Or.inr ⟨kv, List.mem_of_mem_filter h2, rfl⟩

theorem db_load_ok_valid {hash : String → String} {fuel : Nat} {st : Store}
    {dpath : String} {rec : DbRec}
    (h : db_load hash fuel st dpath = .ok rec) :
    ∀ kv ∈ rec.files, dbCheckVal kv.2 = true := by
  unfold db_load at h
  cases hr : readFile fuel st (db_dir_file hash dpath) with
  | none =>
    rw [hr] at h
    injection h with h2
    subst h2
    intro kv hkv
    simp at hkv
  | some r =>
    rw [hr] at h
    obtain ⟨heq, hall⟩ := _db_check_ok h
    subst heq
    exact fun kv hkv => List.all_eq_true.mp hall kv hkv

/-- The anatomy of a successful `db_update`: which record is written, and
where. -/
theorem db_update_ok_anatomy {hash : String → String} {fuel : Nat}
    {st : Store} {dpath : String} {changes : Files} {st' : Store}
    {rec : DbRec}
    (hl : db_load hash fuel st dpath = .ok rec)
    (hu : db_update hash fuel st dpath changes = .ok st') :
    ∃ wn, resolveName fuel st (db_dir_file hash rec.dir) = some wn ∧
      st' = storeSet st wn
        (.file ⟨rec.dir, pyPrune (pyMerge rec.files changes)⟩) ∧
      ((pyPrune (pyMerge rec.files changes)).all
        fun kv => dbCheckVal kv.2) = true := by
  unfold db_update at hu
  rw [hl] at hu
  simp only [Bind.bind, Except.bind] at hu
  cases hc : _db_check hash fuel st (db_dir_file hash rec.dir) rec.dir
      ⟨rec.dir, pyPrune (pyMerge rec.files changes)⟩ with
  | error e => rw [hc] at hu; simp at hu
  | ok db_ =>
    rw [hc] at hu
    simp only at hu
    obtain ⟨hdb, hall⟩ := _db_check_ok hc
    subst hdb
    cases hw : resolveName fuel st (db_dir_file hash rec.dir) with
    | none => rw [hw] at hu; simp at hu
    | some wn =>
      rw [hw] at hu
      simp only [Except.ok.injEq] at hu
      exact ⟨wn, rfl, hu.symm, hall⟩

/-- A `db_update` whose inputs are well-formed succeeds and writes the
merged, pruned record to the owning sidecar file. -/
theorem db_update_ok_shape {hash : String → String} {fuel : Nat}
    {st : Store} {dpath : String} {changes : Files} {rec : DbRec}
    {wn : String}
    (hl : db_load hash fuel st dpath = .ok rec)
    (hcv : ∀ kv, kv ∈ changes →
      dbCheckVal kv.2 = true ∨ pyEqFalse kv.2 = true)
    (hw : resolveName fuel st (db_dir_file hash rec.dir) = some wn) :
    db_update hash fuel st dpath changes =
      .ok (storeSet st wn
        (.file ⟨rec.dir, pyPrune (pyMerge rec.files changes)⟩)) := by
  have hrv := db_load_ok_valid hl
  have hall : ((pyPrune (pyMerge rec.files changes)).all
      fun kv => dbCheckVal kv.2) = true := by
    rw [List.all_eq_true]
    intro kv hkv
    obtain ⟨hmem, hnf⟩ := mem_pyPrune hkv
    rcases mem_pyMerge_val hmem with ⟨kv', hkv', heq⟩ | ⟨kv', hkv', heq⟩
    · rw [heq]
      exact hrv kv' hkv'
    · rcases hcv kv' hkv' with hv | hv
      · rw [heq]; exact hv
      · rw [heq] at hnf
        rw [hv] at hnf
        exact absurd hnf (by simp)
  have hchk : _db_check hash fuel st (db_dir_file hash rec.dir) rec.dir
      ⟨rec.dir, pyPrune (pyMerge rec.files changes)⟩ =
      .ok ⟨rec.dir, pyPrune (pyMerge rec.files changes)⟩ := by
    unfold _db_check
    rw [if_neg (not_not_intro (Or.inl rfl))]
    rw [if_neg]
    rw [hall]
    simp
  unfold db_update
  rw [hl]
  simp only [Bind.bind, Except.bind]
  rw [hchk]
  simp only
  rw [hw]

theorem dbCheckVal_not_false {v : JVal} (h : dbCheckVal v = true) :
    pyEqFalse v = false := by
  cases v with
  | jint n =>
    simp only [dbCheckVal, Bool.or_eq_true, decide_eq_true_eq] at h
    have hn : n ≠ 0 := by rcases h with h | h <;> omega
    simp [pyEqFalse, hn]
  | jbool b => cases b <;> simp [dbCheckVal, pyEqFalse] at *
  | jnull => simp [dbCheckVal] at h
  | jstr s => simp [dbCheckVal] at h

/-- C4: when the changes map `f` to the unmark sentinel, a successful
`db_update` removes `f` from the persisted files map entirely (so `f` is
classified `new` afterwards), while every other key is merged
last-write-wins: keys not in the changes keep their stored value, keys in
the changes (with a non-sentinel value) take the changed value. -/
theorem c4_unmark_prunes (hash : String → String) (fuel : Nat)
    (st : Store) (dpath : String) (changes : Files) (st' : Store)
    (rec : DbRec) (f : String)
    (hfnd : keysNodup rec.files) (hcnd : keysNodup changes)
    (hl : db_load hash fuel st dpath = .ok rec)
    (hu : db_update hash fuel st dpath changes = .ok st')
    (hpresent : flookup rec.files f ≠ none)
    (hf : flookup changes f = some UNMARK) :
    ∃ wn rec', resolveName fuel st (db_dir_file hash rec.dir) = some wn ∧
      storeGet st' wn = some (.file rec') ∧
      flookup rec'.files f = none ∧
      _state f rec'.files = some "new" ∧
      (∀ g, flookup changes g = none →
        flookup rec'.files g = flookup rec.files g) ∧
      (∀ g v, flookup changes g = some v → pyEqFalse v = false →
        flookup rec'.files g = some v) := by
  obtain ⟨wn, hw, hst, hall⟩ := db_update_ok_anatomy hl hu
  subst hst
  have hmnd : keysNodup (pyMerge rec.files changes) :=
    keysNodup_pyMerge hfnd hcnd
  have hnone : flookup (pyPrune (pyMerge rec.files changes)) f = none := by
    have h1 : flookup (pyMerge rec.files changes) f = some UNMARK := by
      rw [flookup_pyMerge, hf]
    rw [flookup_pyPrune hmnd, h1]
    rfl
  refine ⟨wn, ⟨rec.dir, pyPrune (pyMerge rec.files changes)⟩,
    hw, ?_, hnone, ?_, ?_, ?_⟩
  · rw [storeGet_storeSet, if_pos rfl]
  · unfold _state
    rw [hnone]
  · intro g hg
    have h1 : flookup (pyMerge rec.files changes) g =
        flookup rec.files g := by
      rw [flookup_pyMerge, hg]
    rw [flookup_pyPrune hmnd, h1]
    cases hrg : flookup rec.files g with
    | none => rfl
    | some v =>
      have hval : dbCheckVal v = true :=
        db_load_ok_valid hl (g, v) (flookup_some_mem hrg)
      simp [dbCheckVal_not_false hval]
  · intro g v hg hv
    have h1 : flookup (pyMerge rec.files changes) g = some v := by
      rw [flookup_pyMerge, hg]
    rw [flookup_pyPrune hmnd, h1]
    simp [hv]

/-- Witness for C4: unmarking `x.mkv` removes it; `y.mkv` keeps its stored
resume point. -/
theorem c4_unmark_prunes_witness :
    (keysNodup ([("x.mkv", DONE), ("y.mkv", JVal.jint 7)] : Files) ∧
     keysNodup ([("x.mkv", UNMARK)] : Files) ∧
     db_load (fun _ => "H") 3
       [(db_dir_file (fun _ => "H") "/d",
         .file ⟨"/d", [("x.mkv", DONE), ("y.mkv", JVal.jint 7)]⟩)] "/d" =
       .ok ⟨"/d", [("x.mkv", DONE), ("y.mkv", JVal.jint 7)]⟩ ∧
     db_update (fun _ => "H") 3
       [(db_dir_file (fun _ => "H") "/d",
         .file ⟨"/d", [("x.mkv", DONE), ("y.mkv", JVal.jint 7)]⟩)] "/d"
       [("x.mkv", UNMARK)] =
       .ok [(db_dir_file (fun _ => "H") "/d",
         .file ⟨"/d", [("y.mkv", JVal.jint 7)]⟩)] ∧
     flookup [("x.mkv", DONE), ("y.mkv", JVal.jint 7)] "x.mkv" ≠ none ∧
     flookup [("x.mkv", UNMARK)] "x.mkv" = some UNMARK) ∧
    (∃ wn rec',
      resolveName 3
        [(db_dir_file (fun _ => "H") "/d",
          .file ⟨"/d", [("x.mkv", DONE), ("y.mkv", JVal.jint 7)]⟩)]
        (db_dir_file (fun _ => "H")
          (DbRec.dir ⟨"/d", [("x.mkv", DONE), ("y.mkv", JVal.jint 7)]⟩)) =
        some wn ∧
      storeGet [(db_dir_file (fun _ => "H") "/d",
          .file ⟨"/d", [("y.mkv", JVal.jint 7)]⟩)] wn =
        some (.file rec') ∧
      flookup rec'.files "x.mkv" = none ∧
      _state "x.mkv" rec'.files = some "new" ∧
      (∀ g, flookup [("x.mkv", UNMARK)] g = none →
        flookup rec'.files g =
          flookup [("x.mkv", DONE), ("y.mkv", JVal.jint 7)] g) ∧
      (∀ g v, flookup [("x.mkv", UNMARK)] g = some v →
        pyEqFalse v = false → flookup rec'.files g = some v)) := by
  refine ⟨⟨by decide, by decide, by decide, by decide, by decide, rfl⟩, ?_⟩
  exact c4_unmark_prunes (fun _ => "H") 3 _ "/d" [("x.mkv", UNMARK)] _
    ⟨"/d", [("x.mkv", DONE), ("y.mkv", JVal.jint 7)]⟩ "x.mkv"
    (by decide) (by decide) (by decide) (by decide) (by decide) rfl

/-! ## C3: alias transparency -/

theorem pyPrune_pyMerge_valid {fs ch : Files}
    (hrv : ∀ kv ∈ fs, dbCheckVal kv.2 = true)
    (hcv : ∀ kv ∈ ch, dbCheckVal kv.2 = true ∨ pyEqFalse kv.2 = true) :
    ((pyPrune (pyMerge fs ch)).all fun kv => dbCheckVal kv.2) = true := by
  rw [List.all_eq_true]
  intro kv hkv
  obtain ⟨hmem, hnf⟩ := mem_pyPrune hkv
  rcases mem_pyMerge_val hmem with ⟨kv', hkv', heq⟩ | ⟨kv', hkv', heq⟩
  · rw [heq]
    exact hrv kv' hkv'
  · rcases hcv kv' hkv' with hv | hv
    · rw [heq]; exact hv
    · rw [heq] at hnf
      rw [hv] at hnf
      exact absurd hnf (by simp)

/-- C3: with an alias from `A` to `B` in place (the source's sidecar name is
a symbolic link to the target's sidecar file name, which holds `B`'s
record), loading `A` yields `B`'s record — same declared canonical path
(`B`) and same files content as loading `B`; and updating through `A`
mutates the owning (target) record, so a subsequent load of `B` (and of
`A`) reports `x` as done. -/
theorem c3_alias_transparency (hash : String → String) (fuel : Nat)
    (st : Store) (A B : String) (recB : DbRec) (x : String)
    (hfuel : 2 ≤ fuel)
    (hAB : db_dir_file hash A ≠ db_dir_file hash B)
    (hA : storeGet st (db_dir_file hash A) =
      some (.link (db_dir_file hash B)))
    (hB : storeGet st (db_dir_file hash B) = some (.file recB))
    (hdir : recB.dir = B)
    (hval : ∀ kv ∈ recB.files, dbCheckVal kv.2 = true)
    (hnd : keysNodup recB.files) :
    db_load hash fuel st A = .ok recB ∧
    db_load hash fuel st B = .ok recB ∧
    ∃ st', db_update hash fuel st A [(x, DONE)] = .ok st' ∧
      ∃ recB', storeGet st' (db_dir_file hash B) = some (.file recB') ∧
        recB'.dir = B ∧
        flookup recB'.files x = some DONE ∧
        _state x recB'.files = some "done" ∧
        db_load hash fuel st' B = .ok recB' ∧
        db_load hash fuel st' A = .ok recB' := by
  obtain ⟨k, rfl⟩ : ∃ k, fuel = k + 2 := ⟨fuel - 2, by omega⟩
  have hreadA : readFile (k + 2) st (db_dir_file hash A) = some recB := by
    simp only [readFile, hA, hB]
  have hreadB : readFile (k + 2) st (db_dir_file hash B) = some recB := by
    simp only [readFile, hB]
  have hresA : resolveName (k + 2) st (db_dir_file hash A) =
      some (db_dir_file hash B) := by
    simp only [resolveName, hA, hB]
  have hresB : resolveName (k + 2) st (db_dir_file hash B) =
      some (db_dir_file hash B) := by
    simp only [resolveName, hB]
  have hsymA : df_is_symlink st (db_dir_file hash A) = true := by
    simp [df_is_symlink, hA]
  have hallB : (recB.files.all fun kv => dbCheckVal kv.2) = true :=
    List.all_eq_true.mpr hval
  have hloadA : db_load hash (k + 2) st A = .ok recB := by
    unfold db_load
    rw [hreadA]
    dsimp only
    unfold _db_check
    rw [if_neg (not_not_intro (Or.inr ⟨hsymA, by rw [hresA, hdir]⟩))]
    rw [if_neg (not_not_intro (by rw [hallB]))]
  have hloadB : db_load hash (k + 2) st B = .ok recB := by
    unfold db_load
    rw [hreadB]
    dsimp only
    unfold _db_check
    rw [if_neg (not_not_intro (Or.inl hdir))]
    rw [if_neg (not_not_intro (by rw [hallB]))]
  refine ⟨hloadA, hloadB, ?_⟩
  have hcv : ∀ kv, kv ∈ ([(x, DONE)] : Files) →
      dbCheckVal kv.2 = true ∨ pyEqFalse kv.2 = true := by
    intro kv hkv
    simp at hkv
    subst hkv
    left
    rfl
  have hwB : resolveName (k + 2) st (db_dir_file hash recB.dir) =
      some (db_dir_file hash B) := by
    rw [hdir]
    exact hresB
  have hupd := db_update_ok_shape hloadA hcv hwB
  set recB' : DbRec :=
    ⟨recB.dir, pyPrune (pyMerge recB.files [(x, DONE)])⟩ with hrecB'
  refine ⟨_, hupd, recB', ?_, hdir, ?_, ?_, ?_, ?_⟩
  · rw [storeGet_storeSet, if_pos rfl]
  · rw [hrecB']
    have hmnd : keysNodup (pyMerge recB.files [(x, DONE)]) :=
      keysNodup_pyMerge hnd (by simp [keysNodup])
    have h1 : flookup (pyMerge recB.files [(x, DONE)]) x = some DONE := by
      rw [flookup_pyMerge]
      simp [flookup]
    rw [flookup_pyPrune hmnd, h1]
    rfl
  · unfold _state
    have hmnd : keysNodup (pyMerge recB.files [(x, DONE)]) :=
      keysNodup_pyMerge hnd (by simp [keysNodup])
    have h1 : flookup (pyMerge recB.files [(x, DONE)]) x = some DONE := by
      rw [flookup_pyMerge]
      simp [flookup]
    rw [hrecB', flookup_pyPrune hmnd, h1]
    rfl
  · -- load B after the update
    have hvalB' : ∀ kv ∈ recB'.files, dbCheckVal kv.2 = true := by
      intro kv hkv
      exact List.all_eq_true.mp (pyPrune_pyMerge_valid hval hcv) kv hkv
    have hgetB' : storeGet
        (storeSet st (db_dir_file hash B) (.file recB'))
        (db_dir_file hash B) = some (.file recB') := by
      rw [storeGet_storeSet, if_pos rfl]
    have hreadB' : readFile (k + 2)
        (storeSet st (db_dir_file hash B) (.file recB'))
        (db_dir_file hash B) = some recB' := by
      simp only [readFile, hgetB']
    unfold db_load
    rw [hreadB']
    dsimp only
    unfold _db_check
    rw [if_neg (not_not_intro (Or.inl hdir))]
    rw [if_neg (not_not_intro (by rw [List.all_eq_true]; exact hvalB'))]
  · -- load A after the update
    have hvalB' : ∀ kv ∈ recB'.files, dbCheckVal kv.2 = true := by
      intro kv hkv
      exact List.all_eq_true.mp (pyPrune_pyMerge_valid hval hcv) kv hkv
    have hgetA' : storeGet
        (storeSet st (db_dir_file hash B) (.file recB'))
        (db_dir_file hash A) =
        some (.link (db_dir_file hash B)) := by
      rw [storeGet_storeSet, if_neg (fun h => hAB h.symm)]
      exact hA
    have hgetB' : storeGet
        (storeSet st (db_dir_file hash B) (.file recB'))
        (db_dir_file hash B) = some (.file recB') := by
      rw [storeGet_storeSet, if_pos rfl]
    have hreadA' : readFile (k + 2)
        (storeSet st (db_dir_file hash B) (.file recB'))
        (db_dir_file hash A) = some recB' := by
      simp only [readFile, hgetA', hgetB']
    have hresA' : resolveName (k + 2)
        (storeSet st (db_dir_file hash B) (.file recB'))
        (db_dir_file hash A) = some (db_dir_file hash B) := by
      simp only [resolveName, hgetA', hgetB']
    have hsymA' : df_is_symlink
        (storeSet st (db_dir_file hash B) (.file recB'))
        (db_dir_file hash A) = true := by
      simp [df_is_symlink, hgetA']
    unfold db_load
    rw [hreadA']
    dsimp only
    unfold _db_check
    rw [if_neg (not_not_intro (Or.inr ⟨hsymA', by rw [hresA', hdir]⟩))]
    rw [if_neg (not_not_intro (by rw [List.all_eq_true]; exact hvalB'))]

/-- Witness for C3 at a concrete aliased store. -/
theorem c3_alias_transparency_witness :
    ((2 : Nat) ≤ 3 ∧
     db_dir_file c3Hash "/a" ≠ db_dir_file c3Hash "/b" ∧
     storeGet c3Store (db_dir_file c3Hash "/a") =
       some (.link (db_dir_file c3Hash "/b")) ∧
     storeGet c3Store (db_dir_file c3Hash "/b") = some (.file c3RecB) ∧
     c3RecB.dir = "/b" ∧
     (∀ kv ∈ c3RecB.files, dbCheckVal kv.2 = true) ∧
     keysNodup c3RecB.files) ∧
    (db_load c3Hash 3 c3Store "/a" = .ok c3RecB ∧
     db_load c3Hash 3 c3Store "/b" = .ok c3RecB ∧
     ∃ st', db_update c3Hash 3 c3Store "/a" [("x.mkv", DONE)] = .ok st' ∧
       ∃ recB', storeGet st' (db_dir_file c3Hash "/b") =
           some (.file recB') ∧
         recB'.dir = "/b" ∧
         flookup recB'.files "x.mkv" = some DONE ∧
         _state "x.mkv" recB'.files = some "done" ∧
         db_load c3Hash 3 st' "/b" = .ok recB' ∧
         db_load c3Hash 3 st' "/a" = .ok recB') := by
  refine ⟨⟨by decide, by decide, by decide, by decide, rfl, by decide,
           by decide⟩, ?_⟩
  exact c3_alias_transparency c3Hash 3 c3Store "/a" "/b" c3RecB "x.mkv"
    (by decide) (by decide) (by decide) (by decide) rfl (by decide)
    (by decide)

/-! ## C2: todo listing -/

theorem mem_insertSorted (x y : String) (l : List String) :
    x ∈ insertSorted y l ↔ x = y ∨ x ∈ l := by
  induction l with
  | nil => simp [insertSorted]
  | cons z zs ih =>
    unfold insertSorted
    by_cases h : strLtB z y
    · simp only [h, if_true, List.mem_cons, ih]
      tauto
    · rw [Bool.not_eq_true] at h
      simp only [h, Bool.false_eq_true, if_false, List.mem_cons]

theorem mem_sorted_ (x : String) (l : List String) :
    x ∈ sorted_ l ↔ x ∈ l := by
  induction l with
  | nil => simp [sorted_]
  | cons z zs ih =>
    unfold sorted_ at *
    simp only [List.foldr_cons]
    rw [mem_insertSorted]
    simp [ih]

theorem mem_insSortedPair {α : Type} (x y : String × α)
    (l : List (String × α)) :
    x ∈ insSortedPair y l ↔ x = y ∨ x ∈ l := by
  induction l with
  | nil => simp [insSortedPair]
  | cons z zs ih =>
    unfold insSortedPair
    by_cases h : strLtB z.1 y.1
    · simp only [h, if_true, List.mem_cons, ih]
      tauto
    · rw [Bool.not_eq_true] at h
      simp only [h, Bool.false_eq_true, if_false, List.mem_cons]

theorem mem_sortByKey {α : Type} (x : String × α) (l : List (String × α)) :
    x ∈ sortByKey l ↔ x ∈ l := by
  induction l with
  | nil => simp [sortByKey]
  | cons z zs ih =>
    unfold sortByKey at *
    simp only [List.foldr_cons]
    rw [mem_insSortedPair]
    simp [ih]

theorem dictInsert_fresh {α : Type} (data : List (String × α)) (p : String)
    (v : α) (h : p ∉ data.map Prod.fst) :
    dictInsert data p v = data ++ [(p, v)] := by
  induction data with
  | nil => rfl
  | cons kv rest ih =>
    obtain ⟨k', v'⟩ := kv
    simp only [List.map_cons, List.mem_cons] at h
    push_neg at h
    unfold dictInsert
    rw [if_neg (fun he => h.1 he.symm)]
    rw [ih h.2]
    simp

theorem todoLoop_eq (exq : String → Bool) (w : String → List String) :
    ∀ (records : List (String × Files))
      (data : List (String × (Nat × Nat))) (nodir : List String),
      keysNodup records →
      (∀ p, p ∈ records.map Prod.fst → p ∉ data.map Prod.fst) →
      todoLoop exq w records data nodir =
        (todoCore exq w records).map fun dn =>
          (data ++ dn.1, nodir ++ dn.2) := by
  intro records
  induction records with
  | nil =>
    intro data nodir _ _
    simp [todoLoop, todoCore]
  | cons r rest ih =>
    intro data nodir hnd hdisj
    obtain ⟨p, fs⟩ := r
    have hnd2 : keysNodup rest := (List.nodup_cons.mp hnd).2
    have hpnotin : p ∉ rest.map Prod.fst := (List.nodup_cons.mp hnd).1
    unfold todoLoop todoCore
    cases he : exq p with
    | false =>
      simp only [Bool.false_eq_true, if_false]
      rw [ih data (nodir ++ [p]) hnd2
        (fun q hq => hdisj q (by simp [hq]))]
      cases todoCore exq w rest with
      | none => rfl
      | some dn => simp
    | true =>
      simp only [if_true]
      cases hc : _dir_count (dir_iter w p fs) with
      | none => rfl
      | some c =>
        dsimp only
        by_cases hz : c.1 + c.2 ≠ 0
        · rw [if_pos hz]
          rw [dictInsert_fresh data p c (hdisj p (by simp))]
          rw [ih (data ++ [(p, c)]) nodir hnd2 ?_]
          · cases todoCore exq w rest with
            | none => rfl
            | some dn => simp [hz]
          · intro q hq
            simp only [List.map_append, List.mem_append]
            push_neg
            refine ⟨hdisj q (by simp [hq]), ?_⟩
            simp only [List.map_cons, List.map_nil, List.mem_singleton]
            intro he2
            subst he2
            exact absurd hq hpnotin
        · rw [if_neg hz]
          rw [ih data nodir hnd2 (fun q hq => hdisj q (by simp [hq]))]
          cases todoCore exq w rest with
          | none => rfl
          | some dn => simp [hz]

theorem todoCore_mem (exq : String → Bool) (w : String → List String) :
    ∀ (records : List (String × Files))
      (res : List (String × (Nat × Nat)) × List String),
      todoCore exq w records = some res →
      ((∀ p, p ∈ res.2 ↔ ∃ fs, (p, fs) ∈ records ∧ exq p = false)
       ∧ (∀ p c, (p, c) ∈ res.1 ↔ ∃ fs, (p, fs) ∈ records ∧
           exq p = true ∧ _dir_count (dir_iter w p fs) = some c ∧
           c.1 + c.2 ≠ 0)) := by
  intro records
  induction records with
  | nil =>
    intro res h
    simp only [todoCore, Option.some.injEq] at h
    subst h
    simp
  | cons r rest ih =>
    intro res h
    obtain ⟨p, fs⟩ := r
    unfold todoCore at h
    cases he : exq p with
    | false =>
      rw [he] at h
      simp only [Bool.false_eq_true, if_false] at h
      obtain ⟨dn, hdn, hres⟩ := Option.map_eq_some'.mp h
      obtain ⟨ihn, ihd⟩ := ih dn hdn
      subst hres
      refine ⟨?_, ?_⟩
      · intro q
        dsimp only
        constructor
        · intro hq
          rcases List.mem_cons.mp hq with hq | hq
          · subst hq
            exact ⟨fs, List.mem_cons_self _ _, he⟩
          · obtain ⟨fs', hm, hx⟩ := (ihn q).mp hq
            exact ⟨fs', List.mem_cons_of_mem _ hm, hx⟩
        · rintro ⟨fs', hm, hx⟩
          rcases List.mem_cons.mp hm with hm | hm
          · exact List.mem_cons.mpr (Or.inl (congrArg Prod.fst hm))
          · exact List.mem_cons_of_mem _ ((ihn q).mpr ⟨fs', hm, hx⟩)
      · intro q c
        dsimp only
        constructor
        · intro hq
          obtain ⟨fs', hm, hx, hcnt, hs⟩ := (ihd q c).mp hq
          exact ⟨fs', List.mem_cons_of_mem _ hm, hx, hcnt, hs⟩
        · rintro ⟨fs', hm, hx, hcnt, hs⟩
          rcases List.mem_cons.mp hm with hm | hm
          · exfalso
            have h1 : q = p := congrArg Prod.fst hm
            rw [h1, he] at hx
            exact absurd hx (by simp)
          · exact (ihd q c).mpr ⟨fs', hm, hx, hcnt, hs⟩
    | true =>
      rw [he] at h
      simp only [if_true] at h
      cases hc : _dir_count (dir_iter w p fs) with
      | none =>
        rw [hc] at h
        simp at h
      | some c0 =>
        rw [hc] at h
        dsimp only at h
        obtain ⟨dn, hdn, hres⟩ := Option.map_eq_some'.mp h
        obtain ⟨ihn, ihd⟩ := ih dn hdn
        subst hres
        refine ⟨?_, ?_⟩
        · intro q
          dsimp only
          constructor
          · intro hq
            obtain ⟨fs', hm, hx⟩ := (ihn q).mp hq
            exact ⟨fs', List.mem_cons_of_mem _ hm, hx⟩
          · rintro ⟨fs', hm, hx⟩
            rcases List.mem_cons.mp hm with hm | hm
            · exfalso
              have h1 : q = p := congrArg Prod.fst hm
              rw [h1, he] at hx
              exact absurd hx (by simp)
            · exact (ihn q).mpr ⟨fs', hm, hx⟩
        · intro q c
          by_cases hz : c0.1 + c0.2 ≠ 0
          · rw [if_pos hz]
            dsimp only
            constructor
            · intro hq
              rcases List.mem_cons.mp hq with hq | hq
              · have h1 : q = p := congrArg Prod.fst hq
                have h2 : c = c0 := congrArg Prod.snd hq
                subst h1
                subst h2
                exact ⟨fs, List.mem_cons_self _ _, he, hc, hz⟩
              · obtain ⟨fs', hm, hx, hcnt, hs⟩ := (ihd q c).mp hq
                exact ⟨fs', List.mem_cons_of_mem _ hm, hx, hcnt, hs⟩
            · rintro ⟨fs', hm, hx, hcnt, hs⟩
              rcases List.mem_cons.mp hm with hm | hm
              · have h1 : q = p := congrArg Prod.fst hm
                have h2 : fs' = fs := congrArg Prod.snd hm
                subst h2
                subst h1
                rw [hcnt] at hc
                injection hc with h3
                exact List.mem_cons.mpr (Or.inl (by rw [h3]))
              · exact List.mem_cons_of_mem _
                  ((ihd q c).mpr ⟨fs', hm, hx, hcnt, hs⟩)
          · rw [if_neg hz]
            dsimp only
            constructor
            · intro hq
              obtain ⟨fs', hm, hx, hcnt, hs⟩ := (ihd q c).mp hq
              exact ⟨fs', List.mem_cons_of_mem _ hm, hx, hcnt, hs⟩
            · rintro ⟨fs', hm, hx, hcnt, hs⟩
              rcases List.mem_cons.mp hm with hm | hm
              · exfalso
                have h1 : q = p := congrArg Prod.fst hm
                have h2 : fs' = fs := congrArg Prod.snd hm
                subst h2
                subst h1
                rw [hcnt] at hc
                injection hc with h3
                rw [h3] at hs
                exact hz hs
              · exact (ihd q c).mpr ⟨fs', hm, hx, hcnt, hs⟩

/-- Counterexample to C2 as stated: the todo counts are NOT computed from
the stored `files` map directly — `do_todo_dirs` re-enumerates the
directory (`dir_iter` calls `dir_files`, a live filesystem scan).  For a
record with an empty stored map whose directory currently contains
`a.mkv`, the code reports the directory with a `new` count of 1, while the
map-direct computation of the spec yields no entry at all; and the code's
output changes when only the live listing changes. -/
theorem c2_counterexample :
    do_todo_dirs [("f", .file ⟨"/d", []⟩)] (fun p => p == "/d")
        (fun _ => ["a.mkv"]) = some ([("/d", (0, 1))], []) ∧
    todo_directories_spec (db_dirs [("f", .file ⟨"/d", []⟩)])
        (fun p => p == "/d") = ([], []) ∧
    do_todo_dirs [("f", .file ⟨"/d", []⟩)] (fun p => p == "/d")
        (fun _ => ["a.mkv"]) ≠
      do_todo_dirs [("f", .file ⟨"/d", []⟩)] (fun p => p == "/d")
        (fun _ => []) := by
  refine ⟨by decide, by decide, by decide⟩

/-- C2 (amended): for every known directory record whose directory exists,
the todo listing computes the playing/new counts by enumerating the
directory's current files (live scan `w`) and classifying each against the
stored map (`dir_iter`), and includes the directory exactly when the sum is
nonzero; records whose directory no longer exists are exactly the
ignorable warnings, and are never part of the result. -/
theorem c2_todo_directories (st : Store) (exq : String → Bool)
    (w : String → List String) (data : List (String × (Nat × Nat)))
    (nodir : List String)
    (hnd : keysNodup (db_dirs st))
    (h : do_todo_dirs st exq w = some (data, nodir)) :
    (∀ p, p ∈ nodir ↔ ∃ fs, (p, fs) ∈ db_dirs st ∧ exq p = false)
    ∧ (∀ p c, (p, c) ∈ data ↔ ∃ fs, (p, fs) ∈ db_dirs st ∧
        exq p = true ∧ _dir_count (dir_iter w p fs) = some c ∧
        c.1 + c.2 ≠ 0) := by
  unfold do_todo_dirs at h
  rw [todoLoop_eq exq w (db_dirs st) [] [] hnd (by simp)] at h
  cases hcore : todoCore exq w (db_dirs st) with
  | none =>
    rw [hcore] at h
    simp at h
  | some dn =>
    rw [hcore] at h
    simp only [Option.map_some', List.nil_append, Option.some.injEq] at h
    obtain ⟨ihn, ihd⟩ := todoCore_mem exq w (db_dirs st) dn hcore
    have hdata : data = sortByKey dn.1 := (congrArg Prod.fst h).symm
    have hnodir : nodir = sorted_ dn.2 := (congrArg Prod.snd h).symm
    constructor
    · intro p
      rw [hnodir, mem_sorted_]
      exact ihn p
    · intro p c
      rw [hdata, mem_sortByKey]
      exact ihd p c

/-- Witness for C2 (amended) at a concrete store: one existing directory
with one live file classified `new`, one vanished directory. -/
theorem c2_todo_directories_witness :
    (keysNodup (db_dirs
       [("f", .file ⟨"/d", []⟩), ("g", .file ⟨"/gone", []⟩)]) ∧
     do_todo_dirs [("f", .file ⟨"/d", []⟩), ("g", .file ⟨"/gone", []⟩)]
        (fun p => p == "/d") (fun _ => ["a.mkv"]) =
       some ([("/d", (0, 1))], ["/gone"])) ∧
    ((∀ p, p ∈ ["/gone"] ↔ ∃ fs,
       (p, fs) ∈ db_dirs
         [("f", .file ⟨"/d", []⟩), ("g", .file ⟨"/gone", []⟩)] ∧
       (fun p => p == "/d") p = false)
     ∧ (∀ p c, (p, c) ∈ [("/d", ((0 : Nat), (1 : Nat)))] ↔ ∃ fs,
       (p, fs) ∈ db_dirs
         [("f", .file ⟨"/d", []⟩), ("g", .file ⟨"/gone", []⟩)] ∧
       (fun p => p == "/d") p = true ∧
       _dir_count (dir_iter (fun _ => ["a.mkv"]) p fs) = some c ∧
       c.1 + c.2 ≠ 0)) := by
  refine ⟨⟨by decide, by decide⟩, ?_⟩
  exact c2_todo_directories
    [("f", .file ⟨"/d", []⟩), ("g", .file ⟨"/gone", []⟩)]
    (fun p => p == "/d") (fun _ => ["a.mkv"]) [("/d", (0, 1))] ["/gone"]
    (by decide) (by decide)
